import Mathlib

/-!
Verification of the Neuro-Seller agent-constructor core against its source.

Shallow embedding of the Python code in
  backend/app/api/v1/constructor.py   (merge_knowledge_bases, constructor_chat)
  backend/app/services/openai_service.py
      (parse_agent_ready_response, normalize_knowledge_base)
  backend/main.py                     (extract_agent_data, parse_website)

Python JSON-ish values are modelled by `PyVal`; Python dicts are modelled as
insertion-ordered association lists (`PyDict`), with assignment keeping the
position of an existing key, as CPython dicts do.  Python `str.lower` /
`str.strip` are modelled for ASCII and the Cyrillic range actually used by
the code.  The specific regular expressions of the source are modelled by
dedicated scanning functions that follow Python's leftmost search with
greedy/lazy backtracking for exactly the patterns appearing in the source.
`json.loads` is modelled by an executable parser of the JSON grammar
(numbers are carried as their lexeme; `\u` escapes outside the surrogate
range are decoded).
-/

inductive PyVal : Type where
  | str : String → PyVal
  | jnum : String → PyVal
  | bool : Bool → PyVal
  | pynone : PyVal
  | vlist : List PyVal → PyVal
  | vdict : List (String × PyVal) → PyVal

abbrev PyDict := List (String × PyVal)

/-- Python truthiness of the values we model: empty string, empty list,
empty dict, `None` and `False` are falsy, everything else truthy.
Numeric literals "0"-like lexemes are not produced by the code paths we
verify, so a `jnum` is treated as truthy. -/
def pyTruthy : PyVal → Bool
  | .str s => s ≠ ""
  | .jnum _ => true
  | .bool b => b
  | .pynone => false
  | .vlist l => !l.isEmpty
  | .vdict d => !d.isEmpty

/-- Truthiness of `d.get(k)`: a missing key yields `None`, which is falsy. -/
def truthyOpt : Option PyVal → Bool
  | some v => pyTruthy v
  | none => false

/-- `d[k]` / `d.get(k)`: first binding of the key. -/
def dget : PyDict → String → Option PyVal
  | [], _ => none
  | (a, b) :: t, k => if k = a then some b else dget t k

/-- `k in d`. -/
def dhasKey : PyDict → String → Bool
  | [], _ => false
  | (a, _) :: t, k => k = a || dhasKey t k

/-- `d[k] = v`: replace in place if the key is present (CPython keeps the
original position), otherwise append. -/
def dset (d : PyDict) (k : String) (v : PyVal) : PyDict :=
  if dhasKey d k then d.map (fun p => if p.1 = k then (k, v) else p)
  else d ++ [(k, v)]

/-- `old.update(new)`: assign every binding of `q` into `p`, in order. -/
def dupdate (p q : PyDict) : PyDict :=
  q.foldl (fun acc kv => dset acc kv.1 kv.2) p

/-- Python whitespace recognized by `str.strip` (the ASCII part, which is
all the inputs in this code base use). -/
def pyIsSpace (c : Char) : Bool :=
  c = ' ' ∨ c = '\t' ∨ c = '\n' ∨ c = '\r' ∨ c = '\x0b' ∨ c = '\x0c'

/-- `str.lower` on one character, for ASCII letters and the Cyrillic
letters appearing in the source's key tables. -/
def pyLowerChar (c : Char) : Char :=
  if 'A' ≤ c ∧ c ≤ 'Z' then Char.ofNat (c.toNat + 32)
  else if 0x410 ≤ c.toNat ∧ c.toNat ≤ 0x42F then Char.ofNat (c.toNat + 0x20)
  else if c.toNat = 0x401 then Char.ofNat 0x451
  else c

def lowerL (l : List Char) : List Char := l.map pyLowerChar

def stripL (l : List Char) : List Char :=
  ((l.dropWhile pyIsSpace).reverse.dropWhile pyIsSpace).reverse

/-- `s.strip()` on strings. -/
def pyStrip (s : String) : String := ⟨stripL s.data⟩

/-- `s.lower()` on strings. -/
def pyLower (s : String) : String := ⟨lowerL s.data⟩

/-- Depth-bounded rendering of `repr` for container values; the fuel is
structural so the function evaluates by `rfl`.  Only ever reached through
`str()` applied to a container, which no verified code path exercises on
deep values. -/
def pyReprF : Nat → PyVal → String
  | 0, _ => ""
  | n+1, v =>
    match v with
    | .str s => "'" ++ s ++ "'"
    | .jnum s => s
    | .bool b => cond b "True" "False"
    | .pynone => "None"
    | .vlist l => "[" ++ String.intercalate ", " (l.map (pyReprF n)) ++ "]"
    | .vdict d =>
        "\x7b" ++
          String.intercalate ", "
            (d.map (fun kv => "'" ++ kv.1 ++ "': " ++ pyReprF n kv.2)) ++
          "\x7d"

/-- Python `str(v)`. Exact on the scalar values; containers rendered with
bounded depth (no verified path applies `str` to a container). -/
def pyStr : PyVal → String
  | .str s => s
  | .jnum s => s
  | .bool b => cond b "True" "False"
  | .pynone => "None"
  | .vlist l => pyReprF 1000 (.vlist l)
  | .vdict d => pyReprF 1000 (.vdict d)

/-- Does the pattern match at the head of the text (case-sensitive)? -/
def liStarts : List Char → List Char → Bool
  | [], _ => true
  | _ :: _, [] => false
  | a :: ps, b :: ss => a = b && liStarts ps ss

/-- Does the pattern match at the head of the text, ignoring case the way
`re.IGNORECASE` does for the ASCII patterns of the source? -/
def liStartsCI (p s : List Char) : Bool :=
  liStarts (lowerL p) (lowerL s)

/-- Index of the first occurrence of `p` in `s` (Python `s.find(p)` and the
leftmost-match rule of `re.search` for a literal pattern). -/
def findAt (p : List Char) : List Char → Option Nat
  | [] => if liStarts p [] then some 0 else none
  | c :: t => if liStarts p (c :: t) then some 0 else (findAt p (c :: t).tail).map (· + 1)

/-- Substring test, `p in s`. -/
def hasSub (p s : List Char) : Bool := (findAt p s).isSome

theorem liStarts_iff (p s : List Char) : liStarts p s = true ↔ ∃ b, s = p ++ b := by
  induction p generalizing s with
  | nil => simp [liStarts]
  | cons a ps ih =>
    cases s with
    | nil => simp [liStarts]
    | cons b ss =>
      simp only [liStarts, Bool.and_eq_true, decide_eq_true_eq, ih]
      constructor
      · rintro ⟨rfl, c, rfl⟩; exact ⟨c, rfl⟩
      · rintro ⟨c, h⟩
        injection h with h1 h2
        exact ⟨h1.symm, c, h2⟩

theorem findAt_some (p s : List Char) (i : Nat) (h : findAt p s = some i) :
    ∃ a b, s = a ++ p ++ b ∧ a.length = i := by
  induction s generalizing i with
  | nil =>
    simp only [findAt] at h
    split at h
    · rename_i hs
      obtain ⟨b, hb⟩ := (liStarts_iff p []).mp hs
      cases h
      exact ⟨[], b, by simpa using hb, rfl⟩
    · cases h
  | cons c t ih =>
    simp only [findAt] at h
    split at h
    · rename_i hs
      obtain ⟨b, hb⟩ := (liStarts_iff p (c :: t)).mp hs
      cases h
      exact ⟨[], b, by simpa using hb, rfl⟩
    · simp only [List.tail_cons, Option.map_eq_some'] at h
      obtain ⟨j, hj, rfl⟩ := h
      obtain ⟨a, b, hab, hlen⟩ := ih j hj
      exact ⟨c :: a, b, by simp [hab], by simp [hlen]⟩

theorem findAt_min (p s a b : List Char) (h : s = a ++ p ++ b) :
    ∃ i, findAt p s = some i ∧ i ≤ a.length := by
  induction a generalizing s with
  | nil =>
    refine ⟨0, ?_, Nat.le_refl 0⟩
    have hst : liStarts p s = true := (liStarts_iff p s).mpr ⟨b, by simpa using h⟩
    cases s with
    | nil => simp [findAt, hst]
    | cons c t => simp [findAt, hst]
  | cons x xs ih =>
    have hs : s = x :: (xs ++ p ++ b) := by simpa [List.cons_append] using h
    subst hs
    obtain ⟨i, hi, hle⟩ := ih (s := xs ++ p ++ b) rfl
    by_cases hst : liStarts p (x :: (xs ++ p ++ b)) = true
    · refine ⟨0, ?_, Nat.zero_le _⟩
      simp only [findAt]
      rw [if_pos (by simpa using hst)]
    · refine ⟨i + 1, ?_, by simpa using Nat.succ_le_succ hle⟩
      simp only [findAt, List.tail_cons]
      rw [if_neg (by simpa using hst), hi]
      rfl

theorem findAt_none (p s : List Char) (h : findAt p s = none) :
    ∀ a b, s ≠ a ++ p ++ b := by
  intro a b hab
  obtain ⟨i, hi, _⟩ := findAt_min p s a b hab
  rw [h] at hi
  cases hi

/-! Embedding of the regular-expression searches used by
`parse_agent_ready_response` (backend/app/services/openai_service.py,
lines 45-133).  Each scanner follows Python's `re.search` semantics for the
exact pattern of the source: leftmost starting position, greedy `\s*` with
backtracking, lazy `.*?` / `.+?` / `[^\n]+?` taking the shortest extension
that lets the rest of the pattern match. -/

def agentReadyMarker : List Char := "---AGENT-READY---".data

def dddL : List Char := "---".data

def lbraceChar : Char := Char.ofNat 123

def rbraceChar : Char := Char.ofNat 125

/-- Pattern `---AGENT-READY---(.*?)---` with `re.DOTALL`: at the leftmost
position where the literal marker matches and some later `---` occurs, the
group is the (shortest) text between them; a marker occurrence with no
closing `---` after it makes the engine retry from the next position. -/
def agentReadyBlock : List Char → Option (List Char)
  | [] => none
  | c :: t =>
    if liStarts agentReadyMarker (c :: t) then
      match findAt dddL ((c :: t).drop 17) with
      | some j => some (((c :: t).drop 17).take j)
      | none => agentReadyBlock t
    else agentReadyBlock t

/-- Pattern `NAME:\s*(\S+)` with `re.IGNORECASE`: at the leftmost position
where `NAME:` matches case-insensitively and a non-empty run of
non-whitespace follows the whitespace, the group is that run. -/
def findNameTok : List Char → Option (List Char)
  | [] => none
  | c :: t =>
    if liStartsCI "NAME:".data (c :: t) then
      let tok := (((c :: t).drop 5).dropWhile pyIsSpace).takeWhile (fun ch => !pyIsSpace ch)
      if tok.isEmpty then findNameTok t else some tok
    else findNameTok t

/-- The lazy group of `TYPE:\s*([^\n]+?)(?:\n|DATA:|$)`: consume non-newline
characters until the first position where a newline, a case-insensitive
`DATA:`, or the end of the input allows the pattern to finish. -/
def scanTypeBody (acc : List Char) : List Char → List Char
  | [] => acc.reverse
  | c :: cs =>
    if c = '\n' then acc.reverse
    else if liStartsCI "DATA:".data (c :: cs) then acc.reverse
    else scanTypeBody (c :: acc) cs

/-- One attempt of `[^\n]+?(?:\n|DATA:|$)` at a fixed position: fails only
when the input is empty or starts with a newline. -/
def typeAttempt : List Char → Option (List Char)
  | [] => none
  | c :: cs => if c = '\n' then none else some (scanTypeBody [c] cs)

/-- Greedy `\s*` with backtracking: try the maximal whitespace skip first,
then shorter ones. -/
def typeTryW (after : List Char) : Nat → Option (List Char)
  | 0 => typeAttempt after
  | w + 1 =>
    match typeAttempt (after.drop (w + 1)) with
    | some r => some r
    | none => typeTryW after w

/-- Pattern `TYPE:\s*([^\n]+?)(?:\n|DATA:|$)` with `re.IGNORECASE`. -/
def findTypeCap : List Char → Option (List Char)
  | [] => none
  | c :: t =>
    if liStartsCI "TYPE:".data (c :: t) then
      let after := (c :: t).drop 5
      match typeTryW after (after.takeWhile pyIsSpace).length with
      | some cap => some cap
      | none => findTypeCap t
    else findTypeCap t

/-- `re.sub(r'\s*DATA:.*', '', business_type, flags=re.IGNORECASE)` on a
string without newlines: everything from the first case-insensitive
`DATA:`, together with the whitespace run just before it, is removed
(`.*` without DOTALL runs to the end of the line, hence to the end of the
newline-free capture). -/
def subDataDotStar (s : List Char) : List Char :=
  match findAt (lowerL "DATA:".data) (lowerL s) with
  | none => s
  | some k => ((s.take k).reverse.dropWhile pyIsSpace).reverse

/-- Trailing `\s*(?:\n|$)` of the DATA pattern: satisfied when a newline
appears within the leading whitespace run, or the rest is all whitespace. -/
def trailingOK (cs : List Char) : Bool :=
  let run := cs.takeWhile pyIsSpace
  run.contains '\n' || run.length = cs.length

/-- The lazy `.+?\}` of `DATA:\s*(\{.+?\})\s*(?:\n|$)` (with DOTALL): after
the opening brace, extend the body one character at a time and close at the
first `\x7d` (preceded by at least one body character) whose tail satisfies
the trailing pattern. -/
def scanDataBody (acc : List Char) : List Char → Option (List Char)
  | [] => none
  | c :: cs =>
    if c = rbraceChar && !acc.isEmpty && trailingOK cs then
      some (acc.reverse ++ [rbraceChar])
    else scanDataBody (c :: acc) cs

/-- Pattern `DATA:\s*(\{.+?\})\s*(?:\n|$)` with `re.DOTALL | re.IGNORECASE`.
The group includes both braces. -/
def findDataJson : List Char → Option (List Char)
  | [] => none
  | c :: t =>
    if liStartsCI "DATA:".data (c :: t) then
      match ((c :: t).drop 5).dropWhile pyIsSpace with
      | b :: body =>
        if b = lbraceChar then
          match scanDataBody [] body with
          | some grp => some (lbraceChar :: grp)
          | none => findDataJson t
        else findDataJson t
      | [] => findDataJson t
    else findDataJson t

/-! Executable model of `json.loads` for the JSON grammar: objects, arrays,
strings (with the standard escapes; `\u` decoded outside surrogates),
numbers (carried as their lexeme), `true`/`false`/`null`.  Duplicate object
keys follow CPython: last value wins, first position kept. -/

def jsonWs (c : Char) : Bool := c = ' ' || c = '\t' || c = '\n' || c = '\r'

def jskip (l : List Char) : List Char := l.dropWhile jsonWs

def hexVal (c : Char) : Option Nat :=
  if '0' ≤ c ∧ c ≤ '9' then some (c.toNat - '0'.toNat)
  else if 'a' ≤ c ∧ c ≤ 'f' then some (c.toNat - 'a'.toNat + 10)
  else if 'A' ≤ c ∧ c ≤ 'F' then some (c.toNat - 'A'.toNat + 10)
  else none

/-- JSON string body after the opening quote: returns the decoded
characters and the input after the closing quote. -/
def jstringAux (acc : List Char) : List Char → Option (List Char × List Char)
  | [] => none
  | c :: cs =>
    if c = '"' then some (acc.reverse, cs)
    else if c = '\\' then
      match cs with
      | [] => none
      | e :: es =>
        if e = '"' then jstringAux ('"' :: acc) es
        else if e = '\\' then jstringAux ('\\' :: acc) es
        else if e = '/' then jstringAux ('/' :: acc) es
        else if e = 'b' then jstringAux ('\x08' :: acc) es
        else if e = 'f' then jstringAux ('\x0c' :: acc) es
        else if e = 'n' then jstringAux ('\n' :: acc) es
        else if e = 'r' then jstringAux ('\r' :: acc) es
        else if e = 't' then jstringAux ('\t' :: acc) es
        else if e = 'u' then
          match es with
          | h1 :: h2 :: h3 :: h4 :: es2 =>
            match hexVal h1, hexVal h2, hexVal h3, hexVal h4 with
            | some a, some b, some c2, some d =>
                jstringAux (Char.ofNat (a * 4096 + b * 256 + c2 * 16 + d) :: acc) es2
            | _, _, _, _ => none
          | _ => none
        else none
    else if c.toNat < 0x20 then none
    else jstringAux (c :: acc) cs

/-- JSON number lexeme: `-? (0 | [1-9][0-9]*) (\.[0-9]+)? ([eE][+-]?[0-9]+)?`. -/
def jnumberLex (l : List Char) : Option (List Char × List Char) :=
  let signAndRest : List Char × List Char :=
    match l with
    | '-' :: r => (['-'], r)
    | _ => ([], l)
  let sign := signAndRest.1
  let r1 := signAndRest.2
  match r1 with
  | [] => none
  | d :: _ =>
    if !d.isDigit then none
    else
      let intPart := if d = '0' then ['0'] else r1.takeWhile Char.isDigit
      let r2 := r1.drop intPart.length
      let fracAndRest : List Char × List Char :=
        match r2 with
        | '.' :: f :: _ =>
          if f.isDigit then
            let ds := (r2.drop 1).takeWhile Char.isDigit
            ('.' :: ds, r2.drop (1 + ds.length))
          else ([], r2)
        | _ => ([], r2)
      let frac := fracAndRest.1
      let r3 := fracAndRest.2
      let expAndRest : List Char × List Char :=
        match r3 with
        | e :: rest =>
          if e = 'e' ∨ e = 'E' then
            let restSign : List Char × List Char :=
              match rest with
              | s2 :: r4 => if s2 = '+' ∨ s2 = '-' then ([s2], r4) else ([], rest)
              | [] => ([], rest)
            match restSign.2 with
            | d2 :: _ =>
              if d2.isDigit then
                let ds := restSign.2.takeWhile Char.isDigit
                (e :: restSign.1 ++ ds, restSign.2.drop ds.length)
              else ([], r3)
            | [] => ([], r3)
          else ([], r3)
        | [] => ([], r3)
      some (sign ++ intPart ++ frac ++ expAndRest.1, expAndRest.2)

inductive JMode : Type where
  | val : JMode
  | obj : PyDict → JMode
  | arr : List PyVal → JMode

/-- Recursive JSON parser; the fuel is structural so that parsing reduces
definitionally.  In `obj`/`arr` mode the input is positioned after the
opening bracket (or after a comma), whitespace already skipped. -/
def jparse : Nat → JMode → List Char → Option (PyVal × List Char)
  | 0, _, _ => none
  | fuel + 1, .val, l =>
    match l with
    | [] => none
    | c :: cs =>
      if c = lbraceChar then jparse fuel (.obj []) (jskip cs)
      else if c = '[' then jparse fuel (.arr []) (jskip cs)
      else if c = '"' then
        match jstringAux [] cs with
        | some (s, r) => some (.str ⟨s⟩, r)
        | none => none
      else if liStarts "true".data l then some (.bool true, l.drop 4)
      else if liStarts "false".data l then some (.bool false, l.drop 5)
      else if liStarts "null".data l then some (.pynone, l.drop 4)
      else
        match jnumberLex l with
        | some (lex, r) => some (.jnum ⟨lex⟩, r)
        | none => none
  | fuel + 1, .obj acc, l =>
    match l with
    | [] => none
    | c :: cs =>
      if c = rbraceChar && acc.isEmpty then some (.vdict acc, cs)
      else if c = '"' then
        match jstringAux [] cs with
        | some (k, r1) =>
          (match jskip r1 with
           | ':' :: r2 =>
             (match jparse fuel .val (jskip r2) with
              | some (v, r3) =>
                (match jskip r3 with
                 | ',' :: r4 => jparse fuel (.obj (dset acc ⟨k⟩ v)) (jskip r4)
                 | c2 :: r4 =>
                   if c2 = rbraceChar then some (.vdict (dset acc ⟨k⟩ v), r4) else none
                 | [] => none)
              | none => none)
           | _ => none)
        | none => none
      else none
  | fuel + 1, .arr acc, l =>
    match l with
    | [] => none
    | c :: _ =>
      if c = ']' && acc.isEmpty then some (.vlist acc, l.drop 1)
      else
        match jparse fuel .val l with
        | some (v, r1) =>
          (match jskip r1 with
           | ',' :: r2 => jparse fuel (.arr (acc ++ [v])) (jskip r2)
           | c2 :: r2 => if c2 = ']' then some (.vlist (acc ++ [v]), r2) else none
           | [] => none)
        | none => none

/-- Model of `json.loads`: parse one value, allow surrounding whitespace,
require the whole string to be consumed.  The fuel exceeds twice the
input length, which bounds the recursion depth: every call either
consumes a character or hands off to a value parser that immediately
does. -/
def jsonLoads (s : String) : Option PyVal :=
  match jparse (2 * s.data.length + 8) .val (jskip s.data) with
  | some (v, r) => if (jskip r).isEmpty then some v else none
  | none => none

/-! Embedding of `normalize_knowledge_base`
(backend/app/services/openai_service.py, lines 135-219). -/

/-- The source's Russian-to-English key table. -/
def key_mapping : List (String × String) :=
  [("услуги", "services"), ("товары", "services"), ("цены", "prices"),
   ("контакты", "contacts"), ("о компании", "about"), ("описание", "about"),
   ("сайт", "website"), ("стиль", "style"), ("faq", "faq"),
   ("частые вопросы", "faq"), ("персона агента", "persona_info"),
   ("персона", "persona_info")]

/-- `key.lower().strip()` followed by the mapping lookup with the lowered
key as default. -/
def englishKey (key : String) : String :=
  let key_lower := pyStrip (pyLower key)
  (List.lookup key_lower key_mapping).getD key_lower

/-- One entry of a services list: dict entries are kept as they are, any
other value is wrapped as a name with the default price. -/
def serviceItemNorm (item : PyVal) : PyVal :=
  match item with
  | .vdict d => .vdict d
  | _ => .vdict [("name", .str (pyStr item)), ("price", .str "цена по запросу")]

/-- The `services` special case: a dict becomes a list of name/price pairs
in insertion order, a list is normalized per entry, anything else becomes a
one-element list. -/
def normalizeServices (value : PyVal) : PyVal :=
  match value with
  | .vdict d => .vlist (d.map (fun kv => .vdict [("name", .str kv.1), ("price", kv.2)]))
  | .vlist l => .vlist (l.map serviceItemNorm)
  | _ => .vlist [.vdict [("name", .str (pyStr value)), ("price", .str "цена по запросу")]]

/-- The `prices` special case: a non-dict is wrapped under the key
"общее". -/
def normalizePrices (value : PyVal) : PyVal :=
  match value with
  | .vdict d => .vdict d
  | _ => .vdict [("общее", .str (pyStr value))]

/-- The loop body of `normalize_knowledge_base`, iterating the raw dict in
insertion order and assigning into the accumulator dict. -/
def normalizeGo (normalized : PyDict) : PyDict → PyDict
  | [] => normalized
  | (key, value) :: rest =>
    let ek := englishKey key
    if ek = "services" then normalizeGo (dset normalized "services" (normalizeServices value)) rest
    else if ek = "prices" then normalizeGo (dset normalized "prices" (normalizePrices value)) rest
    else if ek = "style" ∨ ek = "persona_info" then normalizeGo normalized rest
    else normalizeGo (dset normalized ek value) rest

def normalize_knowledge_base (raw_kb : PyDict) : PyDict :=
  normalizeGo [] raw_kb

/-! Embedding of `parse_agent_ready_response`
(backend/app/services/openai_service.py, lines 45-133). -/

structure ProtocolResult where
  agent_name : String
  business_type : String
  knowledge_base : PyDict

/-- The parser of the block-form ready signal.  Mirrors the source line by
line: marker containment check, block extraction, NAME, TYPE (with the
`DATA:` cleanup substitution), DATA (JSON with `raw_data` fallback on a
decode error).  The source's blanket `except` wrapper corresponds to the
one unreachable non-dict case of a successful decode of a brace-delimited
string, which yields `None` exactly as the wrapper would. -/
def parse_agent_ready_response (response_text : String) : Option ProtocolResult :=
  let s := response_text.data
  if !hasSub agentReadyMarker s then none
  else
    match agentReadyBlock s with
    | none => none
    | some blk =>
      let content := stripL blk
      match findNameTok content with
      | none => none
      | some tok =>
        let agent_name := pyLower (pyStrip ⟨tok⟩)
        match findTypeCap content with
        | none => none
        | some cap =>
          let business_type := pyStrip ⟨subDataDotStar (stripL cap)⟩
          match findDataJson content with
          | none => none
          | some grp =>
            let data_str : String := ⟨stripL grp⟩
            match jsonLoads data_str with
            | some (.vdict raw) =>
                some ⟨agent_name, business_type, normalize_knowledge_base raw⟩
            | some _ => none
            | none =>
                some ⟨agent_name, business_type, [("raw_data", .str data_str)]⟩

/-! Embedding of `extract_agent_data` (backend/main.py, lines 328-348), the
bracket-form extractor. -/

/-- Python `message.find(sub, start)` relative slice helper:
`message[start:end]` where `end` is the position of the next `]`, or `-1`
(one before the end) when there is none. -/
def sliceToBracket (rest : List Char) : List Char :=
  match findAt "]".data rest with
  | some e => rest.take e
  | none => rest.take (rest.length - 1)

/-- One bracket field: if the tag occurs, the text between the end of the
tag and the next `]` (or `message[start:-1]` when no `]` follows),
stripped. -/
def bracketField (tag : String) (message : List Char) : Option String :=
  match findAt tag.data message with
  | some i => some ⟨stripL (sliceToBracket (message.drop (i + tag.data.length)))⟩
  | none => none

/-- `extract_agent_data`: builds a plain string-valued dict from the three
bracket tags; fields whose tag is absent are simply not set. -/
def extract_agent_data (message : String) : PyDict :=
  let m := message.data
  let d0 : PyDict := []
  let d1 := match bracketField "[AGENT_NAME:" m with
    | some v => dset d0 "agent_name" (.str v)
    | none => d0
  let d2 := match bracketField "[BUSINESS_TYPE:" m with
    | some v => dset d1 "business_type" (.str v)
    | none => d1
  match bracketField "[KNOWLEDGE_BASE:" m with
  | some v => dset d2 "knowledge_base" (.str v)
  | none => d2

/-! Embedding of `merge_knowledge_bases`
(backend/app/api/v1/constructor.py, lines 151-211).

The source starts from `old_kb.copy()`, a SHALLOW copy: the nested dicts
under "prices" and "contacts" stay shared with `old_kb`, and
`old_prices.update(new_prices)` therefore mutates `old_kb`'s nested dict
in place.  The embedding makes the state change explicit:
`merge_knowledge_bases_eff` returns the pair (merged result, value of
`old_kb` after the call). -/

/-- The simple-field loop: `for key in ["business_type", "website",
"about"]: if new_data.get(key): merged[key] = new_data[key]`. -/
def mergeSimpleFields (merged new_data : PyDict) : PyDict :=
  ["business_type", "website", "about"].foldl
    (fun acc key =>
      match dget new_data key with
      | some v => if pyTruthy v then dset acc key v else acc
      | none => acc)
    merged

/-- The services paragraph of the merge. -/
def mergeServices (merged new_data : PyDict) : PyDict :=
  if truthyOpt (dget new_data "services") then
    let old_services := (dget merged "services").getD (.vlist [])
    match dget new_data "services" with
    | some new_services =>
      match old_services, new_services with
      | .vlist ol, .vlist nl => dset merged "services" (.vlist (ol ++ nl))
      | _, _ => dset merged "services" new_services
    | none => merged
  else merged

/-- A mapping-valued paragraph (`prices` / `contacts`): both dicts means
`old.update(new)` (in place) and rebinding, otherwise `new` replaces. -/
def mergeDictField (key : String) (merged new_data : PyDict) : PyDict :=
  if truthyOpt (dget new_data key) then
    let old_val := (dget merged key).getD (.vdict [])
    match dget new_data key with
    | some new_val =>
      match old_val, new_val with
      | .vdict op, .vdict np => dset merged key (.vdict (dupdate op np))
      | _, _ => dset merged key new_val
    | none => merged
  else merged

/-- The faq paragraph. -/
def mergeFaq (merged new_data : PyDict) : PyDict :=
  if truthyOpt (dget new_data "faq") then
    let old_faq := (dget merged "faq").getD (.vlist [])
    match dget new_data "faq" with
    | some new_faq =>
      match old_faq, new_faq with
      | .vlist ol, .vlist nl => dset merged "faq" (.vlist (ol ++ nl))
      | _, _ => dset merged "faq" new_faq
    | none => merged
  else merged

/-- The raw_data paragraph:
`merged["raw_data"] = f"\x7bold_raw\x7d\n\n\x7bnew\x7d".strip()`. -/
def mergeRawData (merged new_data : PyDict) : PyDict :=
  if truthyOpt (dget new_data "raw_data") then
    match dget new_data "raw_data" with
    | some nv =>
      let old_raw := (dget merged "raw_data").getD (.str "")
      dset merged "raw_data" (.str (pyStrip (pyStr old_raw ++ "\n\n" ++ pyStr nv)))
    | none => merged
  else merged

/-- The in-place effect of the call on `old_kb` for one mapping-valued key:
`old_prices.update(new_prices)` runs precisely when `new_data[key]` is
truthy and both sides are dicts, and the updated dict is the object still
referenced by `old_kb` (the copy was shallow). -/
def mutateOldDictField (key : String) (old_kb new_data : PyDict) : PyDict :=
  if truthyOpt (dget new_data key) then
    match dget old_kb key, dget new_data key with
    | some (.vdict op), some (.vdict np) => dset old_kb key (.vdict (dupdate op np))
    | _, _ => old_kb
  else old_kb

/-- `merge_knowledge_bases`, together with the post-call value of the
`old_kb` argument. -/
def merge_knowledge_bases_eff (old_kb new_data : PyDict) : PyDict × PyDict :=
  let merged := old_kb
  let merged := mergeSimpleFields merged new_data
  let merged := mergeServices merged new_data
  let merged := mergeDictField "prices" merged new_data
  let merged := mergeDictField "contacts" merged new_data
  let merged := mergeFaq merged new_data
  let merged := mergeRawData merged new_data
  let oldAfter := mutateOldDictField "prices" old_kb new_data
  let oldAfter := mutateOldDictField "contacts" oldAfter new_data
  (merged, oldAfter)

/-- The return value of `merge_knowledge_bases`. -/
def merge_knowledge_bases (old_kb new_data : PyDict) : PyDict :=
  (merge_knowledge_bases_eff old_kb new_data).1


/-! Embedding of the session layer of `constructor_chat`
(backend/app/api/v1/constructor.py, lines 293-409) for create-mode
sessions (`agent_id` absent, no update keywords), which is the path the
verified claims are about, together with `parse_website`
(lines 49-91) and `extract_info_from_website` (lines 93-149).

The outbound network effects (the HTTP fetch inside `parse_website` and
the completion call inside `extract_info_from_website`) are external
collaborators; they enter the model as explicit outcome values, and the
embedding reproduces what the Python code does with each outcome. -/

structure Message where
  role : String
  content : String
deriving DecidableEq

/-- What BeautifulSoup extraction yields from a successful HTTP response;
the markup stripping itself is the external library. -/
structure PageData where
  title : String
  description : String
  text : String

/-- Outcome of the `httpx` fetch: `client.get` raises on timeout or
network error, and `raise_for_status` raises on a non-2xx status; all are
caught by the bare `except` of `parse_website`. -/
inductive FetchOutcome : Type where
  | timeout : String → FetchOutcome
  | httpError : Nat → String → FetchOutcome
  | netError : String → FetchOutcome
  | ok : PageData → FetchOutcome

def fetchIsError : FetchOutcome → Bool
  | .ok _ => false
  | _ => true

/-- `str(e)` of the raised exception. -/
def fetchErrMsg : FetchOutcome → String
  | .timeout m => m
  | .httpError _ m => m
  | .netError m => m
  | .ok _ => ""

/-- `parse_website`: success dict with the first 3000 characters of the
page text, or `\x7b"success": False, "error": str(e)\x7d` on any fetch
exception. -/
def parse_website (url : String) (outcome : FetchOutcome) : PyDict :=
  match outcome with
  | .ok page =>
      [("success", .bool true), ("url", .str url), ("title", .str page.title),
       ("description", .str page.description),
       ("content", .str ⟨page.text.data.take 3000⟩)]
  | e => [("success", .bool false), ("error", .str (fetchErrMsg e))]

/-- Outcome of a `chat_completion` call: the content string, or the
exception it raised. -/
inductive CompletionOutcome : Type where
  | ok : String → CompletionOutcome
  | err : String → CompletionOutcome

/-- `re.search(r'\x7b.*\x7d', content, re.DOTALL)`: greedy, so from the
first opening brace to the last closing brace after it. -/
def greedyBraces (s : List Char) : Option (List Char) :=
  match findAt [lbraceChar] s with
  | none => none
  | some a =>
    let rest := s.drop a
    let j := rest.length - 1 - (rest.reverse.takeWhile (fun c => c ≠ rbraceChar)).length
    if rest.contains rbraceChar ∧ 1 ≤ j then some (rest.take (j + 1)) else none

/-- `extract_info_from_website`: a failed fetch short-circuits to an
`error` dict before any completion call; otherwise the completion response
is mined for a greedy brace group and JSON-decoded, with `raw_data` /
`error` fallbacks as in the source (exception messages abstracted). -/
def extract_info_from_website (url : String) (fetch : FetchOutcome)
    (completion : CompletionOutcome) : PyDict :=
  let parsed := parse_website url fetch
  if !truthyOpt (dget parsed "success") then
    [("error", (dget parsed "error").getD (.str ""))]
  else
    match completion with
    | .err e => [("error", .str ("Ошибка извлечения данных: " ++ e)), ("website", .str url)]
    | .ok content =>
      match greedyBraces content.data with
      | some grp =>
        match jsonLoads ⟨grp⟩ with
        | some (.vdict d) => dset d "website" (.str url)
        | _ => [("error", .str "Ошибка извлечения данных: JSONDecodeError"),
                ("website", .str url)]
      | none => [("raw_data", .str content), ("website", .str url)]

/-- Lines 302-306 of `constructor_chat`: each incoming request message is
appended to the stored history only if an equal message (same role and
content) is not already present — the membership test runs against the
history as it grows. -/
def dedupAppendHistory (history : List Message) (incoming : List Message) : List Message :=
  incoming.foldl (fun h m => if m ∈ h then h else h ++ [m]) history

/-- Scheme part of the `https?://` alternative, if it matches here. -/
def urlSchemeLen (s : List Char) : Option Nat :=
  if liStarts "https://".data s then some 8
  else if liStarts "http://".data s then some 7
  else none

/-- `re.findall(r'https?://[^\s]+', text)`: leftmost, non-overlapping,
each match extending over the maximal non-whitespace run. -/
def findUrlsF : Nat → List Char → List (List Char)
  | 0, _ => []
  | _ + 1, [] => []
  | fuel + 1, c :: t =>
    match urlSchemeLen (c :: t) with
    | some n =>
      let body := ((c :: t).drop n).takeWhile (fun ch => !pyIsSpace ch)
      if body.isEmpty then findUrlsF fuel t
      else ((c :: t).take n ++ body) :: findUrlsF fuel (((c :: t).drop n).dropWhile (fun ch => !pyIsSpace ch))
    | none => findUrlsF fuel t

def findUrls (s : List Char) : List (List Char) :=
  findUrlsF (s.length + 1) s

/-- The system turn injected after a successful site extraction.  The
source renders an f-string from the extracted fields; no verified claim
depends on the prose layout, so the rendering keeps only the recognizable
envelope and a bounded rendering of the payload. -/
def siteInfoContent (url : String) (wd : PyDict) : String :=
  "[ИНФОРМАЦИЯ С САЙТА " ++ url ++ "]\n\n" ++ pyReprF 1000 (.vdict wd) ++
    "\n\n[КОНЕЦ ИНФОРМАЦИИ С САЙТА]"

/-- State of one create-mode `constructor_chat` turn at the moment the
completion capability is called. -/
structure TurnResult : Type where
  historyAfter : List Message
  llmRequest : List Message
deriving DecidableEq

/-- The URL paragraph of `constructor_chat` (lines 356-394): if the last
request message holds URLs, the first one is fetched and structured, and a
synthetic system turn is appended only when the extraction came back
without an `error` key. -/
def injectSiteInfo (h1 : List Message) (lastMessage : String)
    (fetch : FetchOutcome) (comp : CompletionOutcome) : List Message :=
  match findUrls lastMessage.data with
  | [] => h1
  | u :: _ =>
    let url : String := ⟨u⟩
    let wd := extract_info_from_website url fetch comp
    if (dget wd "error").isNone then h1 ++ [⟨"system", siteInfoContent url wd⟩]
    else h1

/-- Lines 297-408 of `constructor_chat` for a create-mode session: merge
the request messages into the stored history (deduplicating), scan the
last request message for URLs, on a URL run the extractor and append a
system turn only when it returned without an `error` key, then call the
completion capability on the meta prompt followed by the accumulated
history. -/
def constructor_chat_turn (metaPrompt : String) (history : List Message)
    (reqMsgs : List Message) (fetch : FetchOutcome)
    (extractionCompletion : CompletionOutcome) : TurnResult :=
  let h1 := dedupAppendHistory history reqMsgs
  let lastMessage : String := match reqMsgs.getLast? with
    | some m => m.content
    | none => ""
  let h2 := injectSiteInfo h1 lastMessage fetch extractionCompletion
  ⟨h2, ⟨"system", metaPrompt⟩ :: h2⟩

/-! Dictionary lemmas. -/

theorem dget_map_keyswap (d : PyDict) (k k2 : String) (v : PyVal) (h : k2 ≠ k) :
    dget (d.map (fun p => if p.1 = k then (k, v) else p)) k2 = dget d k2 := by
  induction d with
  | nil => rfl
  | cons hd tl ih =>
    obtain ⟨a, b⟩ := hd
    simp only [List.map_cons]
    by_cases ha : a = k
    · subst ha
      rw [if_pos (rfl : ((a, b) : String × PyVal).1 = a)]
      simp only [dget]
      rw [if_neg h, if_neg h]
      exact ih
    · rw [if_neg (show ¬((a, b) : String × PyVal).1 = k from ha)]
      simp only [dget]
      by_cases hk2 : k2 = a
      · rw [if_pos hk2, if_pos hk2]
      · rw [if_neg hk2, if_neg hk2]
        exact ih

theorem dget_append_single_ne (d : PyDict) (k k2 : String) (v : PyVal) (h : k2 ≠ k) :
    dget (d ++ [(k, v)]) k2 = dget d k2 := by
  induction d with
  | nil =>
    simp only [List.nil_append, dget]
    rw [if_neg h]
  | cons hd tl ih =>
    obtain ⟨a, b⟩ := hd
    simp only [List.cons_append, dget]
    by_cases hk2 : k2 = a
    · rw [if_pos hk2, if_pos hk2]
    · rw [if_neg hk2, if_neg hk2]
      exact ih

theorem dget_dset_ne (d : PyDict) (k k2 : String) (v : PyVal) (h : k2 ≠ k) :
    dget (dset d k v) k2 = dget d k2 := by
  unfold dset
  by_cases hc : dhasKey d k
  · rw [if_pos hc]
    exact dget_map_keyswap d k k2 v h
  · rw [if_neg hc]
    exact dget_append_single_ne d k k2 v h

theorem dget_map_keyswap_self (d : PyDict) (k : String) (v : PyVal)
    (h : dhasKey d k = true) :
    dget (d.map (fun p => if p.1 = k then (k, v) else p)) k = some v := by
  induction d with
  | nil => simp [dhasKey] at h
  | cons hd tl ih =>
    obtain ⟨a, b⟩ := hd
    simp only [List.map_cons]
    by_cases ha : a = k
    · subst ha
      rw [if_pos (rfl : ((a, b) : String × PyVal).1 = a)]
      simp only [dget]
      rw [if_pos trivial]
    · rw [if_neg (show ¬((a, b) : String × PyVal).1 = k from ha)]
      simp only [dget]
      rw [if_neg (fun hk => ha hk.symm)]
      simp only [dhasKey, Bool.or_eq_true, decide_eq_true_eq] at h
      rcases h with h | h
      · exact absurd h.symm ha
      · exact ih h

theorem dget_append_single_self (d : PyDict) (k : String) (v : PyVal)
    (h : dhasKey d k = false) :
    dget (d ++ [(k, v)]) k = some v := by
  induction d with
  | nil =>
    simp only [List.nil_append, dget]
    rw [if_pos trivial]
  | cons hd tl ih =>
    obtain ⟨a, b⟩ := hd
    simp only [dhasKey, Bool.or_eq_false_iff, decide_eq_false_iff_not] at h
    simp only [List.cons_append, dget]
    rw [if_neg h.1]
    exact ih h.2

theorem dget_dset_self (d : PyDict) (k : String) (v : PyVal) :
    dget (dset d k v) k = some v := by
  unfold dset
  by_cases hc : dhasKey d k
  · rw [if_pos hc]
    exact dget_map_keyswap_self d k v hc
  · rw [if_neg hc]
    exact dget_append_single_self d k v (by simpa using hc)

/-! Per-paragraph preservation lemmas for `merge_knowledge_bases`. -/

theorem mergeSimpleFields_dget (d n : PyDict) (k : String)
    (h1 : k ≠ "business_type") (h2 : k ≠ "website") (h3 : k ≠ "about") :
    dget (mergeSimpleFields d n) k = dget d k := by
  have step : ∀ (acc : PyDict) (key : String), k ≠ key →
      dget (match dget n key with
            | some v => if pyTruthy v then dset acc key v else acc
            | none => acc) k = dget acc k := by
    intro acc key hk
    cases dget n key with
    | none => rfl
    | some v =>
      by_cases hv : pyTruthy v
      · simp [hv, dget_dset_ne acc key k v hk]
      · simp [hv]
  simp only [mergeSimpleFields, List.foldl_cons, List.foldl_nil]
  rw [step _ "about" h3, step _ "website" h2, step _ "business_type" h1]

theorem mergeServices_dget_other (d n : PyDict) (k : String) (h : k ≠ "services") :
    dget (mergeServices d n) k = dget d k := by
  unfold mergeServices
  by_cases ht : truthyOpt (dget n "services")
  · simp only [ht, if_true]
    cases dget n "services" with
    | none => rfl
    | some nv =>
      cases hosv : (dget d "services").getD (.vlist []) <;>
        cases nv <;>
        simp [dget_dset_ne _ _ _ _ h]
  · simp [ht]

theorem mergeDictField_dget_other (key : String) (d n : PyDict) (k : String)
    (h : k ≠ key) :
    dget (mergeDictField key d n) k = dget d k := by
  unfold mergeDictField
  by_cases ht : truthyOpt (dget n key)
  · simp only [ht, if_true]
    cases dget n key with
    | none => rfl
    | some nv =>
      cases hosv : (dget d key).getD (.vdict []) <;>
        cases nv <;>
        simp [dget_dset_ne _ _ _ _ h]
  · simp [ht]

theorem mergeFaq_dget_other (d n : PyDict) (k : String) (h : k ≠ "faq") :
    dget (mergeFaq d n) k = dget d k := by
  unfold mergeFaq
  by_cases ht : truthyOpt (dget n "faq")
  · simp only [ht, if_true]
    cases dget n "faq" with
    | none => rfl
    | some nv =>
      cases hosv : (dget d "faq").getD (.vlist []) <;>
        cases nv <;>
        simp [dget_dset_ne _ _ _ _ h]
  · simp [ht]

theorem mergeRawData_dget_other (d n : PyDict) (k : String) (h : k ≠ "raw_data") :
    dget (mergeRawData d n) k = dget d k := by
  unfold mergeRawData
  by_cases ht : truthyOpt (dget n "raw_data")
  · simp only [ht, if_true]
    cases dget n "raw_data" with
    | none => rfl
    | some nv => simp [dget_dset_ne _ _ _ _ h]
  · simp [ht]

theorem mergeServices_dget_services (d n : PyDict) (oldS newS : List PyVal)
    (hOld : dget d "services" = some (.vlist oldS))
    (hNew : dget n "services" = some (.vlist newS)) :
    dget (mergeServices d n) "services" = some (.vlist (oldS ++ newS)) := by
  unfold mergeServices
  rw [hNew, hOld]
  by_cases hne : newS.isEmpty
  · have hnil : newS = [] := by simpa [List.isEmpty_iff] using hne
    subst hnil
    rw [if_neg (by simp [truthyOpt, pyTruthy])]
    rw [hOld, List.append_nil]
  · rw [if_pos (by simp [truthyOpt, pyTruthy, hne])]
    simp only [Option.getD_some]
    exact dget_dset_self d "services" _

/-- Claim C1 (amended): when both knowledge bases hold lists under
`services`, the merged `services` value is exactly old followed by new —
every old entry is kept unchanged as a prefix, and every new entry is
appended regardless of case-insensitive name collisions (an empty new list
leaves the old list in place, which the concatenation also expresses). -/
theorem claim1_theorem (old_kb new_data : PyDict) (oldS newS : List PyVal)
    (hOld : dget old_kb "services" = some (.vlist oldS))
    (hNew : dget new_data "services" = some (.vlist newS)) :
    dget (merge_knowledge_bases old_kb new_data) "services" =
      some (.vlist (oldS ++ newS)) := by
  show dget (mergeRawData (mergeFaq (mergeDictField "contacts" (mergeDictField "prices"
      (mergeServices (mergeSimpleFields old_kb new_data) new_data) new_data) new_data)
      new_data) new_data) "services" = some (.vlist (oldS ++ newS))
  rw [mergeRawData_dget_other _ _ _ (by decide), mergeFaq_dget_other _ _ _ (by decide),
    mergeDictField_dget_other "contacts" _ _ _ (by decide),
    mergeDictField_dget_other "prices" _ _ _ (by decide)]
  exact mergeServices_dget_services _ new_data oldS newS
    (by rw [mergeSimpleFields_dget _ _ _ (by decide) (by decide) (by decide)]; exact hOld)
    hNew

/-- Claim C1 witness: a concrete merge of two one-entry service lists. -/
theorem claim1_witness :
    dget (merge_knowledge_bases
        [("services", PyVal.vlist [PyVal.vdict [("name", PyVal.str "Haircut"), ("price", PyVal.str "500")]])]
        [("services", PyVal.vlist [PyVal.vdict [("name", PyVal.str "Manicure"), ("price", PyVal.str "300")]])])
      "services" =
      some (PyVal.vlist
        [PyVal.vdict [("name", PyVal.str "Haircut"), ("price", PyVal.str "500")],
         PyVal.vdict [("name", PyVal.str "Manicure"), ("price", PyVal.str "300")]]) :=
  claim1_theorem _ _
    [PyVal.vdict [("name", PyVal.str "Haircut"), ("price", PyVal.str "500")]]
    [PyVal.vdict [("name", PyVal.str "Manicure"), ("price", PyVal.str "300")]]
    rfl rfl

/-- Claim C1 counterexample: merging a service list with an entry whose
name differs from an existing one only in case appends it anyway — the
merged list holds two entries with case-insensitively equal names, so the
merge does not deduplicate case-insensitively. -/
theorem claim1_counterexample :
    dget (merge_knowledge_bases
        [("services", PyVal.vlist [PyVal.vdict [("name", PyVal.str "Haircut"), ("price", PyVal.str "500")]])]
        [("services", PyVal.vlist [PyVal.vdict [("name", PyVal.str "haircut"), ("price", PyVal.str "600")]])])
      "services" =
      some (PyVal.vlist
        [PyVal.vdict [("name", PyVal.str "Haircut"), ("price", PyVal.str "500")],
         PyVal.vdict [("name", PyVal.str "haircut"), ("price", PyVal.str "600")]]) ∧
    pyLower "Haircut" = pyLower "haircut" ∧ "Haircut" ≠ "haircut" :=
  ⟨rfl, rfl, by decide⟩

theorem mutateOld_dget_other (key : String) (old_kb n : PyDict) (k : String)
    (h : k ≠ key) :
    dget (mutateOldDictField key old_kb n) k = dget old_kb k := by
  unfold mutateOldDictField
  by_cases ht : truthyOpt (dget n key)
  · rw [if_pos ht]
    rcases hO : dget old_kb key with _ | ov <;> rcases hN : dget n key with _ | nv
    · rfl
    · cases nv <;> rfl
    · cases ov <;> rfl
    · cases ov <;> cases nv <;> first
        | rfl
        | exact dget_dset_ne old_kb key k _ h
  · rw [if_neg ht]

theorem mutateOld_dget_self (key : String) (old_kb n : PyDict) (p q : PyDict)
    (hO : dget old_kb key = some (.vdict p)) (hN : dget n key = some (.vdict q))
    (hq : q ≠ []) :
    dget (mutateOldDictField key old_kb n) key = some (.vdict (dupdate p q)) := by
  unfold mutateOldDictField
  rw [hO, hN]
  rw [if_pos (by simp [truthyOpt, pyTruthy, hq])]
  exact dget_dset_self old_kb key _

/-- Claim C2 (amended): `merge_knowledge_bases` does not leave `old_kb`
fully intact.  Precisely: every key of `old_kb` other than `prices` and
`contacts` is unchanged by the call, but when both `old_kb` and `new_data`
hold mappings under `prices` (resp. `contacts`) and the new mapping is
non-empty, the shallow `old_kb.copy()` leaves the nested mapping shared
and `old_prices.update(new_prices)` rewrites it in place inside `old_kb`
(new entries win). -/
theorem claim2_theorem :
    (∀ (old_kb new_data : PyDict) (k : String), k ≠ "prices" → k ≠ "contacts" →
        dget (merge_knowledge_bases_eff old_kb new_data).2 k = dget old_kb k) ∧
    (∀ (old_kb new_data : PyDict) (p q : PyDict),
        dget old_kb "prices" = some (.vdict p) →
        dget new_data "prices" = some (.vdict q) → q ≠ [] →
        dget (merge_knowledge_bases_eff old_kb new_data).2 "prices" =
          some (.vdict (dupdate p q))) ∧
    (∀ (old_kb new_data : PyDict) (p q : PyDict),
        dget old_kb "contacts" = some (.vdict p) →
        dget new_data "contacts" = some (.vdict q) → q ≠ [] →
        dget (merge_knowledge_bases_eff old_kb new_data).2 "contacts" =
          some (.vdict (dupdate p q))) := by
  refine ⟨?_, ?_, ?_⟩
  · intro old_kb new_data k hp hc
    show dget (mutateOldDictField "contacts" (mutateOldDictField "prices" old_kb new_data)
        new_data) k = dget old_kb k
    rw [mutateOld_dget_other "contacts" _ _ k hc, mutateOld_dget_other "prices" _ _ k hp]
  · intro old_kb new_data p q hO hN hq
    show dget (mutateOldDictField "contacts" (mutateOldDictField "prices" old_kb new_data)
        new_data) "prices" = some (.vdict (dupdate p q))
    rw [mutateOld_dget_other "contacts" _ _ "prices" (by decide)]
    exact mutateOld_dget_self "prices" old_kb new_data p q hO hN hq
  · intro old_kb new_data p q hO hN hq
    show dget (mutateOldDictField "contacts" (mutateOldDictField "prices" old_kb new_data)
        new_data) "contacts" = some (.vdict (dupdate p q))
    refine mutateOld_dget_self "contacts" _ new_data p q ?_ hN hq
    rw [mutateOld_dget_other "prices" _ _ "contacts" (by decide)]
    exact hO

/-- Claim C2 witness: on concrete inputs the post-call `old_kb` keeps its
other key untouched while its nested prices mapping has absorbed the new
entry. -/
theorem claim2_witness :
    dget (merge_knowledge_bases_eff
        [("about", PyVal.str "x"), ("prices", PyVal.vdict [("a", PyVal.str "1")])]
        [("prices", PyVal.vdict [("b", PyVal.str "2")])]).2 "prices" =
      some (PyVal.vdict (dupdate [("a", PyVal.str "1")] [("b", PyVal.str "2")])) ∧
    dget (merge_knowledge_bases_eff
        [("about", PyVal.str "x"), ("prices", PyVal.vdict [("a", PyVal.str "1")])]
        [("prices", PyVal.vdict [("b", PyVal.str "2")])]).2 "about" =
      dget [("about", PyVal.str "x"), ("prices", PyVal.vdict [("a", PyVal.str "1")])] "about" :=
  ⟨claim2_theorem.2.1 _ _ _ _ rfl rfl (List.cons_ne_nil _ _),
   claim2_theorem.1 _ _ "about" (by decide) (by decide)⟩

/-- Claim C2 counterexample: after
`merge_knowledge_bases(\x7b"prices": \x7b"a": "1"\x7d\x7d, \x7b"prices": \x7b"b": "2"\x7d\x7d)`
the `old_kb` argument is no longer what it was before the call: its nested
prices mapping now also holds the new key, because the copy was shallow and
the update ran in place. -/
theorem claim2_counterexample :
    (merge_knowledge_bases_eff
        [("prices", PyVal.vdict [("a", PyVal.str "1")])]
        [("prices", PyVal.vdict [("b", PyVal.str "2")])]).2 =
      [("prices", PyVal.vdict [("a", PyVal.str "1"), ("b", PyVal.str "2")])] ∧
    (merge_knowledge_bases_eff
        [("prices", PyVal.vdict [("a", PyVal.str "1")])]
        [("prices", PyVal.vdict [("b", PyVal.str "2")])]).2 ≠
      [("prices", PyVal.vdict [("a", PyVal.str "1")])] := by
  refine ⟨rfl, ?_⟩
  intro h
  have h2 : ([("prices", PyVal.vdict [("a", PyVal.str "1"), ("b", PyVal.str "2")])] : PyDict) =
      [("prices", PyVal.vdict [("a", PyVal.str "1")])] := h
  simp at h2

/-! Lemmas for claims C9 and C10. -/

/-- Number of occurrences of a message in a history list. -/
def countOcc (m : Message) : List Message → Nat
  | [] => 0
  | x :: t => (if x = m then 1 else 0) + countOcc m t

theorem countOcc_append (m : Message) (a b : List Message) :
    countOcc m (a ++ b) = countOcc m a + countOcc m b := by
  induction a with
  | nil => simp [countOcc]
  | cons x t ih => simp [countOcc, ih, Nat.add_assoc]

theorem countOcc_eq_zero_of_not_mem (m : Message) (h : List Message)
    (hm : m ∉ h) : countOcc m h = 0 := by
  induction h with
  | nil => rfl
  | cons x t ih =>
    simp only [List.mem_cons, not_or] at hm
    have hxm : ¬ x = m := fun e => hm.1 (Eq.symm e)
    simp only [countOcc, if_neg hxm, ih hm.2, Nat.add_zero]

theorem dedupAppend_count_of_mem (incoming : List Message) :
    ∀ (h : List Message) (m : Message), m ∈ h →
      countOcc m (dedupAppendHistory h incoming) = countOcc m h := by
  induction incoming with
  | nil => intro h m _; rfl
  | cons x t ih =>
    intro h m hm
    show countOcc m (dedupAppendHistory (if x ∈ h then h else h ++ [x]) t) = countOcc m h
    by_cases hx : x ∈ h
    · rw [if_pos hx]; exact ih h m hm
    · rw [if_neg hx, ih (h ++ [x]) m (List.mem_append_left _ hm), countOcc_append]
      have hxm : ¬ x = m := fun e => hx (e ▸ hm)
      simp [countOcc, hxm]

theorem dedupAppend_count_le (incoming : List Message) :
    ∀ (h : List Message) (m : Message),
      countOcc m (dedupAppendHistory h incoming) ≤ max (countOcc m h) 1 := by
  induction incoming with
  | nil => intro h m; exact Nat.le_max_left _ _
  | cons x t ih =>
    intro h m
    show countOcc m (dedupAppendHistory (if x ∈ h then h else h ++ [x]) t) ≤ _
    by_cases hx : x ∈ h
    · rw [if_pos hx]; exact ih h m
    · rw [if_neg hx]
      refine le_trans (ih (h ++ [x]) m) ?_
      rw [countOcc_append]
      by_cases hxm : x = m
      · subst hxm
        rw [countOcc_eq_zero_of_not_mem x h hx]
        simp [countOcc]
      · simp [countOcc, hxm]

theorem dedupAppend_all_mem (incoming : List Message) :
    ∀ (h : List Message), (∀ m ∈ incoming, m ∈ h) →
      dedupAppendHistory h incoming = h := by
  induction incoming with
  | nil => intro h _; rfl
  | cons x t ih =>
    intro h hall
    show dedupAppendHistory (if x ∈ h then h else h ++ [x]) t = h
    rw [if_pos (hall x (List.mem_cons_self x t))]
    exact ih h (fun m hm => hall m (List.mem_cons_of_mem x hm))

theorem extract_error_on_fetch_failure (url : String) (fetch : FetchOutcome)
    (comp : CompletionOutcome) (hErr : fetchIsError fetch = true) :
    extract_info_from_website url fetch comp =
      [("error", PyVal.str (fetchErrMsg fetch))] := by
  cases fetch with
  | ok p => exact absurd hErr (by simp [fetchIsError])
  | timeout m => rfl
  | httpError n m => rfl
  | netError m => rfl

theorem injectSiteInfo_fetch_failure (h1 : List Message) (lastMessage : String)
    (fetch : FetchOutcome) (comp : CompletionOutcome)
    (hErr : fetchIsError fetch = true) :
    injectSiteInfo h1 lastMessage fetch comp = h1 := by
  unfold injectSiteInfo
  cases findUrls lastMessage.data with
  | nil => rfl
  | cons u us =>
    simp only [extract_error_on_fetch_failure _ _ _ hErr]
    simp [dget]

/-- Claim C9: when the website fetch times out, returns a non-2xx status
or fails with a network error, `parse_website` returns the failure dict
(`success: False` plus the error text) instead of propagating the
exception, and the create-mode `constructor_chat` turn still reaches the
completion call with the accumulated (deduplicated) history — no site turn
is injected and the scrape failure never blocks the conversation. -/
theorem claim9_theorem (outcome : FetchOutcome) (hErr : fetchIsError outcome = true) :
    (∀ url : String, parse_website url outcome =
        [("success", PyVal.bool false), ("error", PyVal.str (fetchErrMsg outcome))]) ∧
    (∀ (metaPrompt : String) (history reqMsgs : List Message)
        (comp : CompletionOutcome),
        constructor_chat_turn metaPrompt history reqMsgs outcome comp =
          ⟨dedupAppendHistory history reqMsgs,
           ⟨"system", metaPrompt⟩ :: dedupAppendHistory history reqMsgs⟩) := by
  constructor
  · intro url
    cases outcome with
    | ok p => exact absurd hErr (by simp [fetchIsError])
    | timeout m => rfl
    | httpError n m => rfl
    | netError m => rfl
  · intro metaPrompt history reqMsgs comp
    show (⟨injectSiteInfo (dedupAppendHistory history reqMsgs) _ outcome comp,
        ⟨"system", metaPrompt⟩ ::
          injectSiteInfo (dedupAppendHistory history reqMsgs) _ outcome comp⟩ : TurnResult) = _
    rw [injectSiteInfo_fetch_failure _ _ _ _ hErr]

/-- Claim C9 witness: a concrete timed-out fetch on a message carrying a
URL. -/
theorem claim9_witness :
    parse_website "http://example-bakery.test" (FetchOutcome.timeout "ReadTimeout") =
      [("success", PyVal.bool false), ("error", PyVal.str "ReadTimeout")] ∧
    constructor_chat_turn "META" []
        [⟨"user", "I run a bakery, website http://example-bakery.test"⟩]
        (FetchOutcome.timeout "ReadTimeout") (CompletionOutcome.ok "irrelevant") =
      ⟨dedupAppendHistory [] [⟨"user", "I run a bakery, website http://example-bakery.test"⟩],
       ⟨"system", "META"⟩ ::
         dedupAppendHistory [] [⟨"user", "I run a bakery, website http://example-bakery.test"⟩]⟩ :=
  ⟨(claim9_theorem (FetchOutcome.timeout "ReadTimeout") rfl).1 "http://example-bakery.test",
   (claim9_theorem (FetchOutcome.timeout "ReadTimeout") rfl).2 "META" []
     [⟨"user", "I run a bakery, website http://example-bakery.test"⟩]
     (CompletionOutcome.ok "irrelevant")⟩

/-- Claim C10: the request-message loop of `constructor_chat` never adds a
message equal (same role and content) to one already stored: counts of
already-present messages are unchanged, no message ever reaches a count
above one unless it was already duplicated, and a request whose messages
are all already stored leaves the history exactly as it was. -/
theorem claim10_theorem :
    (∀ (history incoming : List Message) (m : Message), m ∈ history →
        countOcc m (dedupAppendHistory history incoming) = countOcc m history) ∧
    (∀ (history incoming : List Message) (m : Message),
        countOcc m (dedupAppendHistory history incoming) ≤ max (countOcc m history) 1) ∧
    (∀ (history incoming : List Message), (∀ m ∈ incoming, m ∈ history) →
        dedupAppendHistory history incoming = history) :=
  ⟨fun history incoming m hm => dedupAppend_count_of_mem incoming history m hm,
   fun history incoming m => dedupAppend_count_le incoming history m,
   fun history incoming hall => dedupAppend_all_mem incoming history hall⟩

/-- Claim C10 witness: repeating the identical user message verbatim adds
nothing. -/
theorem claim10_witness :
    countOcc ⟨"user", "hello"⟩
        (dedupAppendHistory [⟨"user", "hello"⟩] [⟨"user", "hello"⟩]) =
      countOcc ⟨"user", "hello"⟩ [⟨"user", "hello"⟩] ∧
    dedupAppendHistory [⟨"user", "hello"⟩] [⟨"user", "hello"⟩] = [⟨"user", "hello"⟩] :=
  ⟨claim10_theorem.1 [⟨"user", "hello"⟩] [⟨"user", "hello"⟩] ⟨"user", "hello"⟩
     (List.mem_singleton.mpr rfl),
   claim10_theorem.2.2 [⟨"user", "hello"⟩] [⟨"user", "hello"⟩]
     (fun _ hm => hm)⟩

/-! Claim C8: canonical shapes and idempotence of the normalizer. -/

/-- The canonical English key set of the knowledge base (spec section 3). -/
def canonicalKeys : List String :=
  ["services", "prices", "about", "contacts", "website", "faq",
   "advantages", "objections", "raw_data", "additional_info"]

/-- A services entry in canonical shape: a dict carrying name and price. -/
def isNamePriceEntry : PyVal → Bool
  | .vdict d => dhasKey d "name" && dhasKey d "price"
  | _ => false

/-- Canonical shape of one binding: services is a list of name/price
objects, prices is a mapping, anything else is unconstrained. -/
def canonicalValue (k : String) (v : PyVal) : Bool :=
  if k = "services" then
    match v with
    | .vlist l => l.all isNamePriceEntry
    | _ => false
  else if k = "prices" then
    match v with
    | .vdict _ => true
    | _ => false
  else true

/-- A knowledge base already in canonical shape: distinct canonical
English lower-case keys with canonically shaped values. -/
def canonicalShape (x : PyDict) : Prop :=
  (x.map Prod.fst).Nodup ∧
    ∀ kv ∈ x, kv.1 ∈ canonicalKeys ∧ canonicalValue kv.1 kv.2 = true

instance canonicalShapeDec (x : PyDict) : Decidable (canonicalShape x) := by
  unfold canonicalShape
  infer_instance

theorem englishKey_canonical : ∀ k ∈ canonicalKeys, englishKey k = k := by decide

theorem canonicalKeys_not_denied :
    ∀ k ∈ canonicalKeys, ¬(k = "style" ∨ k = "persona_info") := by decide

theorem map_serviceItemNorm_id (l : List PyVal)
    (h : l.all isNamePriceEntry = true) : l.map serviceItemNorm = l := by
  induction l with
  | nil => rfl
  | cons v t ih =>
    simp only [List.all_cons, Bool.and_eq_true] at h
    have hv : serviceItemNorm v = v := by
      cases v <;> simp_all [isNamePriceEntry, serviceItemNorm]
    simp only [List.map_cons, hv, ih h.2]

theorem normalizeServices_canonical (l : List PyVal)
    (h : l.all isNamePriceEntry = true) :
    normalizeServices (.vlist l) = .vlist l := by
  show PyVal.vlist (l.map serviceItemNorm) = PyVal.vlist l
  rw [map_serviceItemNorm_id l h]

theorem dhasKey_append_single (d : PyDict) (k k2 : String) (v : PyVal) :
    dhasKey (d ++ [(k, v)]) k2 = (dhasKey d k2 || decide (k2 = k)) := by
  induction d with
  | nil => simp [dhasKey]
  | cons hd tl ih =>
    obtain ⟨a, b⟩ := hd
    simp [dhasKey, ih, Bool.or_assoc]

theorem dset_fresh (d : PyDict) (k : String) (v : PyVal)
    (h : dhasKey d k = false) : dset d k v = d ++ [(k, v)] := by
  unfold dset
  rw [if_neg (by simp [h])]

set_option maxHeartbeats 1000000 in
theorem normalizeGo_canonical (x : PyDict) : ∀ acc : PyDict,
    (∀ kv ∈ x, kv.1 ∈ canonicalKeys ∧ canonicalValue kv.1 kv.2 = true) →
    (x.map Prod.fst).Nodup →
    (∀ kv ∈ x, dhasKey acc kv.1 = false) →
    normalizeGo acc x = acc ++ x := by
  induction x with
  | nil => intro acc _ _ _; simp [normalizeGo]
  | cons hd t ih =>
    intro acc hcanon hnodup hfresh
    obtain ⟨k, v⟩ := hd
    have hk : k ∈ canonicalKeys := (hcanon (k, v) (List.mem_cons_self _ _)).1
    have hv : canonicalValue k v = true := (hcanon (k, v) (List.mem_cons_self _ _)).2
    have hek : englishKey k = k := englishKey_canonical k hk
    have hfk : dhasKey acc k = false := hfresh (k, v) (List.mem_cons_self _ _)
    have hnd : (t.map Prod.fst).Nodup := (List.nodup_cons.mp hnodup).2
    have hknot : k ∉ t.map Prod.fst := (List.nodup_cons.mp hnodup).1
    have hfresh2 : ∀ (v2 : PyVal) (kv : String × PyVal), kv ∈ t →
        dhasKey (acc ++ [(k, v2)]) kv.1 = false := by
      intro v2 kv hkv
      rw [dhasKey_append_single]
      have h1 : dhasKey acc kv.1 = false := hfresh kv (List.mem_cons_of_mem _ hkv)
      have h2 : ¬ kv.1 = k := fun e => hknot (e ▸ List.mem_map_of_mem Prod.fst hkv)
      simp [h1, h2]
    show normalizeGo acc ((k, v) :: t) = acc ++ (k, v) :: t
    unfold normalizeGo
    simp only [hek]
    by_cases hs : k = "services"
    · subst hs
      rw [if_pos rfl]
      have hl : ∃ l, v = .vlist l ∧ l.all isNamePriceEntry = true := by
        cases v <;> first
          | exact ⟨_, rfl, by simpa [canonicalValue] using hv⟩
          | simp [canonicalValue] at hv
      obtain ⟨l, rfl, hall⟩ := hl
      rw [normalizeServices_canonical l hall, dset_fresh acc _ _ hfk]
      rw [ih (acc ++ [("services", PyVal.vlist l)])
        (fun kv hkv => hcanon kv (List.mem_cons_of_mem _ hkv)) hnd
        (fun kv hkv => hfresh2 _ kv hkv)]
      rw [List.append_assoc]
      rfl
    · rw [if_neg hs]
      by_cases hp : k = "prices"
      · subst hp
        rw [if_pos rfl]
        have hdd : ∃ dd, v = .vdict dd := by
          cases v <;> first
            | exact ⟨_, rfl⟩
            | simp [canonicalValue] at hv
        obtain ⟨dd, rfl⟩ := hdd
        show normalizeGo (dset acc "prices" (PyVal.vdict dd)) t =
          acc ++ ("prices", PyVal.vdict dd) :: t
        rw [dset_fresh acc _ _ hfk]
        rw [ih (acc ++ [("prices", PyVal.vdict dd)])
          (fun kv hkv => hcanon kv (List.mem_cons_of_mem _ hkv)) hnd
          (fun kv hkv => hfresh2 _ kv hkv)]
        rw [List.append_assoc]
        rfl
      · rw [if_neg hp]
        rw [if_neg (canonicalKeys_not_denied k hk)]
        rw [dset_fresh acc _ _ hfk]
        rw [ih (acc ++ [(k, v)])
          (fun kv hkv => hcanon kv (List.mem_cons_of_mem _ hkv)) hnd
          (fun kv hkv => hfresh2 _ kv hkv)]
        rw [List.append_assoc]
        rfl

theorem normalize_canonical_id (x : PyDict) (h : canonicalShape x) :
    normalize_knowledge_base x = x := by
  unfold normalize_knowledge_base
  rw [normalizeGo_canonical x [] h.2 h.1 (fun kv _ => rfl)]
  rfl

/-- Claim C8: for every knowledge-base mapping already in canonical shape
(distinct canonical English lower-case keys, services a list of
name/price objects, prices a mapping), normalizing twice equals
normalizing once. -/
theorem claim8_theorem (x : PyDict) (h : canonicalShape x) :
    normalize_knowledge_base (normalize_knowledge_base x) =
      normalize_knowledge_base x := by
  rw [normalize_canonical_id x h]
  exact normalize_canonical_id x h

/-- Claim C8 witness: a concrete canonical knowledge base. -/
theorem claim8_witness :
    normalize_knowledge_base (normalize_knowledge_base
      [("services", PyVal.vlist [PyVal.vdict [("name", PyVal.str "Haircut"), ("price", PyVal.str "500")]]),
       ("prices", PyVal.vdict [("Haircut", PyVal.str "500")]),
       ("about", PyVal.str "Salon")]) =
    normalize_knowledge_base
      [("services", PyVal.vlist [PyVal.vdict [("name", PyVal.str "Haircut"), ("price", PyVal.str "500")]]),
       ("prices", PyVal.vdict [("Haircut", PyVal.str "500")]),
       ("about", PyVal.str "Salon")] :=
  claim8_theorem _ (by decide)

/-! Structural lemmas about the block scanner, used for claims C4 and C6. -/

theorem agentReadyBlock_some (s g : List Char) (h : agentReadyBlock s = some g) :
    ∃ pre post, s = pre ++ agentReadyMarker ++ g ++ dddL ++ post := by
  induction s with
  | nil => simp [agentReadyBlock] at h
  | cons c t ih =>
    unfold agentReadyBlock at h
    by_cases hst : liStarts agentReadyMarker (c :: t) = true
    · rw [if_pos hst] at h
      cases hf : findAt dddL ((c :: t).drop 17) with
      | none =>
        rw [hf] at h
        obtain ⟨pre, post, hd⟩ := ih h
        exact ⟨c :: pre, post, by simp [hd, List.append_assoc]⟩
      | some j =>
        rw [hf] at h
        obtain ⟨a, b, hab, hlen⟩ := findAt_some dddL ((c :: t).drop 17) j hf
        obtain ⟨rest0, hrest⟩ := (liStarts_iff _ _).mp hst
        have hdrop : (c :: t).drop 17 = rest0 := by
          rw [hrest, show (17 : Nat) = agentReadyMarker.length from rfl]
          exact List.drop_left _ _
        have hab2 : rest0 = a ++ dddL ++ b := by rw [← hdrop]; exact hab
        injection h with hg
        have hga : g = a := by
          rw [← hg, hdrop, hab2, ← hlen, List.append_assoc]
          exact List.take_left a (dddL ++ b)
        refine ⟨[], b, ?_⟩
        rw [List.nil_append, hrest, hab2, hga]
        simp [List.append_assoc]
    · rw [if_neg hst] at h
      obtain ⟨pre, post, hd⟩ := ih h
      exact ⟨c :: pre, post, by simp [hd, List.append_assoc]⟩

/-- `dropWhile` removes an initial segment. -/
theorem dropWhile_decomp (p : Char → Bool) (l : List Char) :
    ∃ u, l = u ++ l.dropWhile p := by
  induction l with
  | nil => exact ⟨[], rfl⟩
  | cons c t ih =>
    by_cases hc : p c = true
    · obtain ⟨u, hu⟩ := ih
      refine ⟨c :: u, ?_⟩
      rw [List.dropWhile_cons, if_pos hc, List.cons_append, ← hu]
    · refine ⟨[], ?_⟩
      rw [List.dropWhile_cons, if_neg hc, List.nil_append]

/-- The stripped text sits inside the original. -/
theorem stripL_decomp (l : List Char) : ∃ u w, l = u ++ stripL l ++ w := by
  obtain ⟨u, hu⟩ := dropWhile_decomp pyIsSpace l
  obtain ⟨u2, hu2⟩ := dropWhile_decomp pyIsSpace (l.dropWhile pyIsSpace).reverse
  refine ⟨u, u2.reverse, ?_⟩
  show l = u ++ stripL l ++ u2.reverse
  have hrev : (l.dropWhile pyIsSpace) = stripL l ++ u2.reverse := by
    have := congrArg List.reverse hu2
    rw [List.reverse_reverse, List.reverse_append] at this
    exact this
  rw [List.append_assoc, ← hrev]
  exact hu

theorem hasSub_of_decomp (p s : List Char) (h : ∃ u w, s = u ++ p ++ w) :
    hasSub p s = true := by
  obtain ⟨u, w, hd⟩ := h
  obtain ⟨i, hi, _⟩ := findAt_min p s u w hd
  rw [hasSub, hi]
  rfl

theorem lowerL_append (a b : List Char) : lowerL (a ++ b) = lowerL a ++ lowerL b :=
  List.map_append pyLowerChar a b

/-- A successful NAME search exhibits a case-insensitive `NAME:`
occurrence. -/
theorem findNameTok_some_ci (c : List Char) (tok : List Char)
    (h : findNameTok c = some tok) :
    ∃ u w, lowerL c = u ++ lowerL "NAME:".data ++ w := by
  induction c with
  | nil => simp [findNameTok] at h
  | cons x t ih =>
    unfold findNameTok at h
    by_cases hst : liStartsCI "NAME:".data (x :: t) = true
    · rw [liStartsCI] at hst
      obtain ⟨b, hb⟩ := (liStarts_iff _ _).mp hst
      exact ⟨[], b, by rw [List.nil_append, hb]⟩
    · rw [if_neg hst] at h
      obtain ⟨u, w, hd⟩ := ih h
      refine ⟨pyLowerChar x :: u, w, ?_⟩
      show lowerL (x :: t) = (pyLowerChar x :: u) ++ lowerL "NAME:".data ++ w
      rw [show lowerL (x :: t) = pyLowerChar x :: lowerL t from rfl, hd]
      rfl

/-- A successful TYPE search exhibits a case-insensitive `TYPE:`
occurrence. -/
theorem findTypeCap_some_ci (c : List Char) (cap : List Char)
    (h : findTypeCap c = some cap) :
    ∃ u w, lowerL c = u ++ lowerL "TYPE:".data ++ w := by
  induction c with
  | nil => simp [findTypeCap] at h
  | cons x t ih =>
    unfold findTypeCap at h
    by_cases hst : liStartsCI "TYPE:".data (x :: t) = true
    · rw [liStartsCI] at hst
      obtain ⟨b, hb⟩ := (liStarts_iff _ _).mp hst
      exact ⟨[], b, by rw [List.nil_append, hb]⟩
    · rw [if_neg hst] at h
      obtain ⟨u, w, hd⟩ := ih h
      refine ⟨pyLowerChar x :: u, w, ?_⟩
      show lowerL (x :: t) = (pyLowerChar x :: u) ++ lowerL "TYPE:".data ++ w
      rw [show lowerL (x :: t) = pyLowerChar x :: lowerL t from rfl, hd]
      rfl

/-- Claim C4 (amended): far from extending the block to the end of the
string, `parse_agent_ready_response` requires a closing `---`: whenever
the input contains the opening marker (first occurrence at `i`) but no
`---` occurs after the marker, the parser returns `None`. -/
theorem claim4_theorem (s : String) (i : Nat)
    (hm : findAt agentReadyMarker s.data = some i)
    (hnc : findAt dddL (s.data.drop (i + 17)) = none) :
    parse_agent_ready_response s = none := by
  have hblock : agentReadyBlock s.data = none := by
    cases hb : agentReadyBlock s.data with
    | none => rfl
    | some g =>
      exfalso
      obtain ⟨pre, post, hd⟩ := agentReadyBlock_some _ _ hb
      obtain ⟨i2, hi2, hle⟩ := findAt_min agentReadyMarker s.data pre
        (g ++ dddL ++ post) (by rw [hd]; simp [List.append_assoc])
      rw [hm] at hi2
      injection hi2 with hie
      subst hie
      have hlen : i + 17 ≤ (pre ++ agentReadyMarker ++ g).length := by
        have : agentReadyMarker.length = 17 := rfl
        simp only [List.length_append, this]
        omega
      have hsplit : s.data.drop (i + 17) =
          (pre ++ agentReadyMarker ++ g).drop (i + 17) ++ (dddL ++ post) := by
        have hd2 : s.data = (pre ++ agentReadyMarker ++ g) ++ (dddL ++ post) := by
          rw [hd]; simp [List.append_assoc]
        rw [hd2]
        exact List.drop_append_of_le_length hlen
      exact findAt_none dddL (s.data.drop (i + 17)) hnc
        ((pre ++ agentReadyMarker ++ g).drop (i + 17)) post
        (by rw [hsplit]; simp [List.append_assoc])
  have h1 : hasSub agentReadyMarker s.data = true := by
    rw [hasSub, hm]; rfl
  simp [parse_agent_ready_response, h1, hblock]

/-- Claim C4 witness: a marker with well-formed NAME, TYPE and DATA fields
but no closing `---` parses to `None`. -/
theorem claim4_witness :
    parse_agent_ready_response
      "---AGENT-READY---\nNAME: Victoria\nTYPE: Salon\nDATA: \x7b\"services\": [\"Haircut\"]\x7d" =
      none :=
  claim4_theorem _ 0 rfl rfl

/-- Claim C4 counterexample: the same no-closing-marker input contains the
opening marker and well-formed fields, yet the parser returns `None`
rather than the non-`None` result the claim asserts (the Python regex
`---AGENT-READY---(.*?)---` demands the closing dashes). -/
theorem claim4_counterexample :
    hasSub agentReadyMarker
      "---AGENT-READY---\nNAME: Maria\nTYPE: Bakery\nDATA: \x7b\"about\": \"bread\"\x7d".data = true ∧
    findNameTok (stripL (("---AGENT-READY---\nNAME: Maria\nTYPE: Bakery\nDATA: \x7b\"about\": \"bread\"\x7d".data).drop 17)) =
      some "Maria".data ∧
    parse_agent_ready_response
      "---AGENT-READY---\nNAME: Maria\nTYPE: Bakery\nDATA: \x7b\"about\": \"bread\"\x7d" = none :=
  ⟨rfl, rfl, rfl⟩

/-- Restatement of `stripL_decomp` with the stripped text as an opaque
middle segment, convenient for rewriting. -/
theorem stripL_decomp2 (l : List Char) :
    ∃ u m w, stripL l = m ∧ l = u ++ m ++ w := by
  obtain ⟨u, w, h⟩ := stripL_decomp l
  exact ⟨u, stripL l, w, rfl, h⟩

/-- Claim C6: the ready parser returns `None` — never an error — on
`"no markers here"`, on every input without the ready marker, on every
input without a case-insensitive `NAME:` label, and on every input
without a case-insensitive `TYPE:` label.  (In the embedding the parser
is a total function into `Option`, mirroring the source's blanket
exception handler that converts any failure into `None`.) -/
theorem claim6_theorem :
    parse_agent_ready_response "no markers here" = none ∧
    (∀ s : String, hasSub agentReadyMarker s.data = false →
        parse_agent_ready_response s = none) ∧
    (∀ s : String, hasSub (lowerL "NAME:".data) (lowerL s.data) = false →
        parse_agent_ready_response s = none) ∧
    (∀ s : String, hasSub (lowerL "TYPE:".data) (lowerL s.data) = false →
        parse_agent_ready_response s = none) := by
  refine ⟨rfl, ?_, ?_, ?_⟩
  · intro s h
    simp [parse_agent_ready_response, h]
  · intro s h
    cases hms : hasSub agentReadyMarker s.data with
    | false => simp [parse_agent_ready_response, hms]
    | true =>
      cases hb : agentReadyBlock s.data with
      | none => simp [parse_agent_ready_response, hms, hb]
      | some g =>
        cases hn : findNameTok (stripL g) with
        | none => simp [parse_agent_ready_response, hms, hb, hn]
        | some tok =>
          exfalso
          obtain ⟨pre, post, hdec⟩ := agentReadyBlock_some _ _ hb
          obtain ⟨u1, m, w1, hm, hg⟩ := stripL_decomp2 g
          rw [hm] at hn
          obtain ⟨u2, w2, hci⟩ := findNameTok_some_ci _ _ hn
          have hs2 : s.data =
              (pre ++ agentReadyMarker ++ u1) ++ m ++ (w1 ++ dddL ++ post) := by
            rw [hdec, hg]; simp [List.append_assoc]
          have hlow : lowerL s.data =
              (lowerL (pre ++ agentReadyMarker ++ u1) ++ u2) ++ lowerL "NAME:".data ++
                (w2 ++ lowerL (w1 ++ dddL ++ post)) := by
            rw [hs2, lowerL_append, lowerL_append, hci]
            simp [List.append_assoc]
          have htrue := hasSub_of_decomp _ _ ⟨_, _, hlow⟩
          rw [h] at htrue
          exact Bool.false_ne_true htrue
  · intro s h
    cases hms : hasSub agentReadyMarker s.data with
    | false => simp [parse_agent_ready_response, hms]
    | true =>
      cases hb : agentReadyBlock s.data with
      | none => simp [parse_agent_ready_response, hms, hb]
      | some g =>
        cases hn : findNameTok (stripL g) with
        | none => simp [parse_agent_ready_response, hms, hb, hn]
        | some tok =>
          cases ht : findTypeCap (stripL g) with
          | none => simp [parse_agent_ready_response, hms, hb, hn, ht]
          | some cap =>
            exfalso
            obtain ⟨pre, post, hdec⟩ := agentReadyBlock_some _ _ hb
            obtain ⟨u1, m, w1, hm, hg⟩ := stripL_decomp2 g
            rw [hm] at ht
            obtain ⟨u2, w2, hci⟩ := findTypeCap_some_ci _ _ ht
            have hs2 : s.data =
                (pre ++ agentReadyMarker ++ u1) ++ m ++ (w1 ++ dddL ++ post) := by
              rw [hdec, hg]; simp [List.append_assoc]
            have hlow : lowerL s.data =
                (lowerL (pre ++ agentReadyMarker ++ u1) ++ u2) ++ lowerL "TYPE:".data ++
                  (w2 ++ lowerL (w1 ++ dddL ++ post)) := by
              rw [hs2, lowerL_append, lowerL_append, hci]
              simp [List.append_assoc]
            have htrue := hasSub_of_decomp _ _ ⟨_, _, hlow⟩
            rw [h] at htrue
            exact Bool.false_ne_true htrue

/-- Claim C6 witness: concrete instances — no marker at all, marker with
NAME missing, marker with TYPE missing — all parse to `None`. -/
theorem claim6_witness :
    parse_agent_ready_response "hello" = none ∧
    parse_agent_ready_response "---AGENT-READY---\nTYPE: Salon\nDATA: \x7b\x7d\n---" = none ∧
    parse_agent_ready_response "---AGENT-READY---\nNAME: Victoria\nDATA: \x7b\x7d\n---" = none :=
  ⟨claim6_theorem.2.1 "hello" rfl,
   claim6_theorem.2.2.1 "---AGENT-READY---\nTYPE: Salon\nDATA: \x7b\x7d\n---" rfl,
   claim6_theorem.2.2.2 "---AGENT-READY---\nNAME: Victoria\nDATA: \x7b\x7d\n---" rfl⟩

/-- Claim C7: whenever the parse reaches the DATA step (marker, block,
NAME and TYPE all found) and the isolated DATA substring fails the JSON
decode, the parser still returns a non-`None` result whose knowledge base
stores that substring verbatim under `raw_data`. -/
theorem claim7_theorem (s : String) (blk tok cap grp : List Char)
    (hmarker : hasSub agentReadyMarker s.data = true)
    (hblk : agentReadyBlock s.data = some blk)
    (hname : findNameTok (stripL blk) = some tok)
    (htype : findTypeCap (stripL blk) = some cap)
    (hdata : findDataJson (stripL blk) = some grp)
    (hjson : jsonLoads ⟨stripL grp⟩ = none) :
    parse_agent_ready_response s =
      some ⟨pyLower (pyStrip ⟨tok⟩), pyStrip ⟨subDataDotStar (stripL cap)⟩,
            [("raw_data", PyVal.str ⟨stripL grp⟩)]⟩ := by
  simp [parse_agent_ready_response, hmarker, hblk, hname, htype, hdata, hjson]

/-- Claim C7 witness: a DATA payload that is not valid JSON comes back
verbatim under `raw_data`, with the parse still succeeding. -/
theorem claim7_witness :
    parse_agent_ready_response
        "---AGENT-READY---\nNAME: x\nTYPE: y\nDATA: \x7bnot valid json\x7d\n---" =
      some ⟨"x", "y", [("raw_data", PyVal.str "\x7bnot valid json\x7d")]⟩ :=
  claim7_theorem _ "\nNAME: x\nTYPE: y\nDATA: \x7bnot valid json\x7d\n".data
    "x".data "y".data "\x7bnot valid json\x7d".data rfl rfl rfl rfl rfl rfl

/-- Claim C5 counterexample: the DATA extraction is the lazy regex
`DATA:\s*(\x7b.+?\x7d)\s*(?:\n|$)`, not brace-depth matching.  With
trailing prose on the DATA line the pattern cannot anchor and the parser
returns `None` instead of isolating the object; and with a newline inside
the nested object it captures a truncated, unbalanced substring which then
lands under `raw_data`. -/
theorem claim5_counterexample :
    parse_agent_ready_response
        "---AGENT-READY---\nNAME: x\nTYPE: y\nDATA: \x7b\"prices\": \x7b\"a\": \"100\"\x7d\x7d thanks\n---" =
      none ∧
    parse_agent_ready_response
        "---AGENT-READY---\nNAME: x\nTYPE: y\nDATA: \x7b\"a\": \x7b\"b\": \"1\"\x7d\n\x7d\n---" =
      some ⟨"x", "y", [("raw_data", PyVal.str "\x7b\"a\": \x7b\"b\": \"1\"\x7d")]⟩ :=
  ⟨rfl, rfl⟩

/-- Claim C5 (amended): on the cited example — the nested DATA object on a
single line immediately followed by the line end — the parser does
recover the full balanced object, with both the nested prices mapping and
the note field, because the lazy `.+?` backtracks until the line-end
anchor; this holds by regex backtracking, not brace-depth matching, and
fails once prose follows on the same line. -/
theorem claim5_theorem :
    parse_agent_ready_response
        "---AGENT-READY---\nNAME: x\nTYPE: y\nDATA: \x7b\"prices\": \x7b\"a\": \"100\"\x7d, \"note\": \"x\"\x7d\n---" =
      some ⟨"x", "y",
        [("prices", PyVal.vdict [("a", PyVal.str "100")]), ("note", PyVal.str "x")]⟩ :=
  rfl

set_option maxRecDepth 8000 in
/-- Claim C3 counterexample: on the bracket-form input of the claim,
`parse_agent_ready_response` (the ready-signal parser of the service
layer) returns `None` — the bracket family is not accepted there — while
`extract_agent_data` (backend/main.py) keeps the name as `"Victoria"`
without case normalization (the string `"victoria"` does not occur in it)
and truncates the knowledge-base payload at the first `]`, leaving a raw
string with no services list at all. -/
theorem claim3_counterexample :
    parse_agent_ready_response
        "[AGENT_READY][AGENT_NAME: Victoria][BUSINESS_TYPE: Salon][KNOWLEDGE_BASE: \x7b\"services\": [\x7b\"name\":\"Haircut\",\"price\":\"500\"\x7d]\x7d]" =
      none ∧
    extract_agent_data
        "[AGENT_READY][AGENT_NAME: Victoria][BUSINESS_TYPE: Salon][KNOWLEDGE_BASE: \x7b\"services\": [\x7b\"name\":\"Haircut\",\"price\":\"500\"\x7d]\x7d]" =
      [("agent_name", PyVal.str "Victoria"), ("business_type", PyVal.str "Salon"),
       ("knowledge_base", PyVal.str "\x7b\"services\": [\x7b\"name\":\"Haircut\",\"price\":\"500\"\x7d")] ∧
    hasSub "victoria".data "Victoria".data = false :=
  ⟨rfl, rfl, rfl⟩

set_option maxRecDepth 8000 in
/-- Claim C3 (amended): the two marker families are handled by two
different parsers with different behavior, not as equivalent inputs.  The
block form is parsed by `parse_agent_ready_response` into the lower-cased
agent name `"victoria"` and a knowledge base whose services list has
exactly one entry; the bracket form is rejected by that parser (`None`)
and is instead handled by `extract_agent_data` in `main.py`, which keeps
`"Victoria"` verbatim and stores a knowledge-base string truncated at the
first `]` (no parsed services list). -/
theorem claim3_theorem :
    parse_agent_ready_response
        "---AGENT-READY---\nNAME: Victoria\nTYPE: Salon\nDATA: \x7b\"services\": [\x7b\"name\":\"Haircut\",\"price\":\"500\"\x7d]\x7d\n---" =
      some ⟨"victoria", "Salon",
        [("services", PyVal.vlist [PyVal.vdict [("name", PyVal.str "Haircut"), ("price", PyVal.str "500")]])]⟩ ∧
    parse_agent_ready_response
        "[AGENT_READY][AGENT_NAME: Victoria][BUSINESS_TYPE: Salon][KNOWLEDGE_BASE: \x7b\"services\": [\x7b\"name\":\"Haircut\",\"price\":\"500\"\x7d]\x7d]" =
      none ∧
    dget (extract_agent_data
        "[AGENT_READY][AGENT_NAME: Victoria][BUSINESS_TYPE: Salon][KNOWLEDGE_BASE: \x7b\"services\": [\x7b\"name\":\"Haircut\",\"price\":\"500\"\x7d]\x7d]")
        "agent_name" = some (PyVal.str "Victoria") :=
  ⟨rfl, rfl, rfl⟩
